import Mathlib

/-!
# AdvancedSearch (static/js/search.js)

A shallow embedding of the `AdvancedSearch` class: the search-suggestion
widget (debounced input, fetch, render, show and hide) and the price-range
filter auto-submit.

JavaScript strings are lists of characters, the browser's timer queue is an
explicit list of pending timers with integer handles, time is a count of
milliseconds, and the asynchronous `fetchSuggestions` is split at its first
`await`: the part that issues the request, and the continuation that runs
when the request settles.  A handler returns the new state together with its
completion (normal, or a thrown error), so that the effects that precede a
throw are kept.
-/

namespace AdvancedSearch

set_option maxRecDepth 100000

/-! ## Strings -/

/-- A JavaScript string, as the list of its characters. -/
abbrev JSString := List Char

/-- The characters `String.prototype.trim` strips: ECMAScript WhiteSpace and
LineTerminator code points. -/
def isJsWhitespace (c : Char) : Bool :=
  let n := c.toNat
  n = 0x09 || n = 0x0A || n = 0x0B || n = 0x0C || n = 0x0D || n = 0x20 ||
  n = 0xA0 || n = 0x1680 || (0x2000 ≤ n && n ≤ 0x200A) || n = 0x2028 ||
  n = 0x2029 || n = 0x202F || n = 0x205F || n = 0x3000 || n = 0xFEFF

/-- The method `String.prototype.trim`. -/
def jsTrim (s : JSString) : JSString :=
  ((s.dropWhile isJsWhitespace).reverse.dropWhile isJsWhitespace).reverse

/-- The property `String.prototype.length`: the number of UTF-16 code units. -/
def jsLength (s : JSString) : Nat :=
  (s.map (fun c => if c.toNat < 0x10000 then 1 else 2)).sum

/-! ## Data model -/

/-- One suggestion record of the response body. -/
structure Suggestion where
  type_ : JSString
  name : JSString
  category : Option JSString
  url : JSString
deriving DecidableEq, Repr

/-- The value of `style.display` of the suggestions panel: `hidden` is
`'none'`, `visible` is `'block'`. -/
inductive Display where
  | hidden
  | visible
deriving DecidableEq, Repr

/-- The suggestions panel element: its `style.display` and its `innerHTML`. -/
structure Panel where
  display : Display
  innerHTML : JSString
deriving DecidableEq, Repr

/-- The errors the code can meet. `typeError` is a property access on `null`,
`fetchFailed` the rejection of `fetch`, `invalidJson` the rejection of
`response.json()`. -/
inductive JSError where
  | typeError
  | fetchFailed
  | invalidJson
deriving DecidableEq, Repr

/-- How a call completes. -/
inductive Completion where
  | normal
  | throw (e : JSError)
deriving DecidableEq, Repr

/-- The two price inputs. -/
inductive PriceInput where
  | minPrice
  | maxPrice
deriving DecidableEq, Repr

/-- The callback of a pending timer: the arrow function of `handleInput`
(which captured `query`), or the `later` closure of one debounced handler. -/
inductive TimerAction where
  | fetch (query : JSString)
  | later (which : PriceInput)
deriving DecidableEq, Repr

/-- A pending timer of the browser. -/
structure Timer where
  id : Nat
  due : Nat
  action : TimerAction
deriving DecidableEq, Repr

/-- Where the target of a click lies in the document. -/
inductive Node where
  | insidePanel
  | insideInput
  | elsewhere
deriving DecidableEq, Repr

/-- The parsed body of a response: `null`, or a value whose `suggestions`
member is absent or null (`none`) or an array of suggestion records. -/
inductive JsonData where
  | null
  | value (suggestions : Option (List Suggestion))
deriving DecidableEq, Repr

/-- The body of a response: not JSON, or JSON. -/
inductive Body where
  | notJson
  | json (data : JsonData)
deriving DecidableEq, Repr

/-- How the request of `fetch` settles: it rejects, or it resolves with a
response of some HTTP status. -/
inductive FetchOutcome where
  | rejected
  | response (status : Nat) (body : Body)
deriving DecidableEq, Repr

/-- The document the script is loaded into. -/
structure Dom where
  searchInput : Bool
  searchSuggestions : Option Panel
  minPrice : Bool
  maxPrice : Bool
  filterForm : Bool
deriving DecidableEq, Repr

/-- The state of the page: the clock and timer queue of the browser, the
fields of the `AdvancedSearch` instance, the `timeout` variable of each
debounced price handler, and the observable effects. -/
structure World where
  now : Nat
  nextTimerId : Nat
  timers : List Timer
  searchInput : Bool
  suggestionsContainer : Option Panel
  debounceTimeout : Option Nat
  searchListeners : Bool
  priceListeners : Bool
  minTimeout : Option Nat
  maxTimeout : Option Nat
  filterForm : Bool
  fetches : List JSString
  inFlight : Nat
  consoleErrors : List JSError
  submits : Nat
  uncaught : List JSError
deriving DecidableEq, Repr

/-! ## Browser primitives -/

/-- The global `clearTimeout`: a handle that is not pending is ignored. -/
def clearTimeout (w : World) (handle : Option Nat) : World :=
  match handle with
  | none => w
  | some h => { w with timers := w.timers.filter (fun t => t.id != h) }

/-- The global `setTimeout`: queues the callback and returns a fresh handle. -/
def setTimeout (w : World) (action : TimerAction) (wait : Nat) : World × Nat :=
  ({ w with
      timers := w.timers ++ [{ id := w.nextTimerId, due := w.now + wait, action := action }],
      nextTimerId := w.nextTimerId + 1 },
   w.nextTimerId)

/-- The call `console.error('Search error:', error)`. -/
def consoleError (w : World) (e : JSError) : World :=
  { w with consoleErrors := w.consoleErrors ++ [e] }

/-- Whether markup assigned to `innerHTML` yields at least one element: a `<`
followed by an ASCII letter occurs, where the HTML tokenizer opens a start
tag. The markup `displaySuggestions` writes starts with such a tag; comments
and the tags the parser drops are not modelled. -/
def hasChildElement : JSString → Bool
  | [] => false
  | [_] => false
  | c :: d :: rest =>
    (c == '<' && d.isAlpha) || hasChildElement (d :: rest)

/-- The test `suggestionsContainer.children.length > 0`. -/
def Panel.hasChildren (p : Panel) : Bool :=
  hasChildElement p.innerHTML

/-! ## The methods of the class -/

/-- The method `showSuggestions`. -/
def showSuggestions (w : World) : World × Completion :=
  match w.suggestionsContainer with
  | none => (w, .throw .typeError)
  | some p =>
    if p.hasChildren then
      ({ w with suggestionsContainer := some { p with display := .visible } }, .normal)
    else
      (w, .normal)

/-- The assignment `this.suggestionsContainer.style.display = 'none'`. -/
def setDisplayNone (w : World) : World × Completion :=
  match w.suggestionsContainer with
  | none => (w, .throw .typeError)
  | some p => ({ w with suggestionsContainer := some { p with display := .hidden } }, .normal)

/-- The method `hideSuggestions`; `event` is `none` when the method is called
without an argument. -/
def hideSuggestions (w : World) (event : Option Node) : World × Completion :=
  match event with
  | none => setDisplayNone w
  | some target =>
    match w.suggestionsContainer with
    | none => (w, .throw .typeError)
    | some _ =>
      if target = .insidePanel then (w, .normal)
      else if w.searchInput = false then (w, .throw .typeError)
      else if target = .insideInput then (w, .normal)
      else setDisplayNone w

/-- The markup of one row: the template literal of `displaySuggestions`. -/
def renderRow (suggestion : Suggestion) : JSString :=
  "\n            <a href=\"".toList ++ suggestion.url ++
  "\" class=\"list-group-item list-group-item-action border-0 py-3\">\n                <div class=\"d-flex align-items-center\">\n                    ".toList ++
  (if suggestion.type_ = "product".toList then
    "\n                        <div class=\"bg-light rounded p-2 me-3\">\n                            <i class=\"fas fa-box text-warning\"></i>\n                        </div>\n                    ".toList
  else
    "\n                        <div class=\"bg-light rounded p-2 me-3\">\n                            <i class=\"fas fa-folder text-warning\"></i>\n                        </div>\n                    ".toList) ++
  "\n                    <div class=\"flex-grow-1\">\n                        <h6 class=\"mb-1 text-dark\">".toList ++
  suggestion.name ++
  "</h6>\n                        <small class=\"text-muted\">".toList ++
  (match suggestion.category with
    | none => "Category".toList
    | some [] => "Category".toList
    | some (c :: cs) => c :: cs) ++
  "</small>\n                    </div>\n                    <i class=\"fas fa-chevron-right text-muted\"></i>\n                </div>\n            </a>\n        ".toList

/-- The method `displaySuggestions`; `none` is an absent list. -/
def displaySuggestions (w : World) (suggestions : Option (List Suggestion)) :
    World × Completion :=
  match suggestions with
  | none => hideSuggestions w none
  | some [] => hideSuggestions w none
  | some (s :: rest) =>
    let html := ((s :: rest).map renderRow).flatten
    match w.suggestionsContainer with
    | none => (w, .throw .typeError)
    | some p =>
      showSuggestions { w with suggestionsContainer := some { p with innerHTML := html } }

/-- The part of `fetchSuggestions` before its first `await`: the request for
`/market/search/suggestions/?q=` followed by the encoded query is issued. -/
def fetchSuggestionsStart (w : World) (query : JSString) : World :=
  { w with fetches := w.fetches ++ [query], inFlight := w.inFlight + 1 }

/-- The body of the `try` block of `fetchSuggestions`, from the moment the
request settles. -/
def fetchSuggestionsTry (w : World) (o : FetchOutcome) : World × Completion :=
  match o with
  | .rejected => (w, .throw .fetchFailed)
  | .response _ body =>
    match body with
    | .notJson => (w, .throw .invalidJson)
    | .json .null => (w, .throw .typeError)
    | .json (.value suggestions) => displaySuggestions w suggestions

/-- The rest of `fetchSuggestions` once the request settles: the `try` block
and the `catch` clause. -/
def fetchSuggestionsResume (w : World) (o : FetchOutcome) : World × Completion :=
  match fetchSuggestionsTry w o with
  | (w1, .normal) => (w1, .normal)
  | (w1, .throw e) => (consoleError w1 e, .normal)

/-- The method `handleInput`; `value` is `event.target.value`. -/
def handleInput (w : World) (value : JSString) : World × Completion :=
  let query := jsTrim value
  let w1 := clearTimeout w w.debounceTimeout
  if jsLength query < 2 then
    hideSuggestions w1 none
  else
    let (w2, h) := setTimeout w1 (.fetch query) 300
    ({ w2 with debounceTimeout := some h }, .normal)

/-- The `timeout` variable of the debounced handler of one price input. -/
def World.timeoutOf (w : World) : PriceInput → Option Nat
  | .minPrice => w.minTimeout
  | .maxPrice => w.maxTimeout

/-- Assignment to the `timeout` variable of one debounced handler. -/
def World.setTimeoutOf (w : World) (which : PriceInput) (h : Option Nat) : World :=
  match which with
  | .minPrice => { w with minTimeout := h }
  | .maxPrice => { w with maxTimeout := h }

/-- The function `executedFunction` that `debounce` returned for one price
input (wait 1000). -/
def executedFunction (w : World) (which : PriceInput) : World × Completion :=
  let w1 := clearTimeout w (w.timeoutOf which)
  let (w2, h) := setTimeout w1 (.later which) 1000
  (w2.setTimeoutOf which (some h), .normal)

/-- The call `document.getElementById('filter-form').submit()`. -/
def submitFilterForm (w : World) : World × Completion :=
  if w.filterForm then ({ w with submits := w.submits + 1 }, .normal)
  else (w, .throw .typeError)

/-- The closure `later` of one debounced handler. -/
def later (w : World) (which : PriceInput) : World × Completion :=
  submitFilterForm (clearTimeout w (w.timeoutOf which))

/-- The method `initPriceFilters`. -/
def initPriceFilters (w : World) (dom : Dom) : World :=
  if dom.minPrice && dom.maxPrice then { w with priceListeners := true } else w

/-- The method `init`. -/
def init (w : World) (dom : Dom) : World :=
  let w1 := if w.searchInput then { w with searchListeners := true } else w
  initPriceFilters w1 dom

/-- The constructor, run on `DOMContentLoaded`. -/
def new (dom : Dom) : World :=
  init
    { now := 0, nextTimerId := 1, timers := [],
      searchInput := dom.searchInput,
      suggestionsContainer := dom.searchSuggestions,
      debounceTimeout := none,
      searchListeners := false, priceListeners := false,
      minTimeout := none, maxTimeout := none,
      filterForm := dom.filterForm,
      fetches := [], inFlight := 0, consoleErrors := [], submits := 0, uncaught := [] }
    dom

/-! ## The event loop -/

/-- An error that leaves a listener or a timer callback is reported and the
loop goes on. -/
def settleCompletion (r : World × Completion) : World :=
  match r.2 with
  | .normal => r.1
  | .throw e => { r.1 with uncaught := r.1.uncaught ++ [e] }

/-- The callback of a timer. The promise `fetchSuggestions` returns is
dropped by the arrow function. -/
def runCallback (w : World) : TimerAction → World × Completion
  | .fetch query => (fetchSuggestionsStart w query, .normal)
  | .later which => later w which

/-- The pending timer that fires first: the least due time, and among equal
due times the one queued first. -/
def earliest : List Timer → Option Timer
  | [] => none
  | t :: ts =>
    match earliest ts with
    | none => some t
    | some u => if u.due < t.due then some u else some t

/-- The timer to fire next when the clock reaches `t`, if any. -/
def nextDue (w : World) (t : Nat) : Option Timer :=
  earliest (w.timers.filter (fun tm => tm.due ≤ t))

/-- Fires one timer: it leaves the queue, then its callback runs. -/
def fireTimer (w : World) (tm : Timer) : World :=
  settleCompletion
    (runCallback
      { w with timers := w.timers.filter (fun t => t.id != tm.id), now := max w.now tm.due }
      tm.action)

/-- Fires the due timers in order, at most `fuel` of them. -/
def fireDue : Nat → World → Nat → World
  | 0, w, _ => w
  | fuel + 1, w, t =>
    match nextDue w t with
    | none => w
    | some tm => fireDue fuel (fireTimer w tm) t

/-- The clock advances to `t`: every timer due by then fires. No callback of
this program sets a timer, so the number of pending timers is fuel enough. -/
def tick (w : World) (t : Nat) : World :=
  let w1 := fireDue w.timers.length w t
  { w1 with now := max w1.now t }

/-- What can happen on the page. -/
inductive Event where
  | tick (t : Nat)
  | input (value : JSString)
  | focus
  | click (target : Node)
  | change (which : PriceInput)
  | settle (o : FetchOutcome)
deriving DecidableEq, Repr

/-- One turn of the event loop. A listener runs only if `init` registered it;
a response is delivered only while a request is in flight. -/
def dispatch (w : World) : Event → World
  | .tick t => tick w t
  | .input value => if w.searchListeners then settleCompletion (handleInput w value) else w
  | .focus => if w.searchListeners then settleCompletion (showSuggestions w) else w
  | .click target =>
    if w.searchListeners then settleCompletion (hideSuggestions w (some target)) else w
  | .change which =>
    if w.priceListeners then settleCompletion (executedFunction w which) else w
  | .settle o =>
    if 0 < w.inFlight then
      settleCompletion (fetchSuggestionsResume { w with inFlight := w.inFlight - 1 } o)
    else w

/-- A sequence of turns. -/
def run (w : World) (events : List Event) : World :=
  events.foldl dispatch w

/-- The queries of the fetch timers of a list, in order. -/
def queries (l : List Timer) : List JSString :=
  l.filterMap (fun tm => match tm.action with | .fetch q => some q | .later _ => none)

/-- The pending `later` timers of the price inputs. -/
def laterTimers (w : World) : List Timer :=
  w.timers.filter (fun t => match t.action with | .fetch _ => false | .later _ => true)

/-- The pending timers of the suggestion fetch. -/
def fetchTimers (w : World) : List Timer :=
  w.timers.filter (fun t => match t.action with | .fetch _ => true | .later _ => false)

/-! ## The rows the specification describes -/

/-- A document with every expected element, the panel hidden and empty. -/
def fullDom : Dom :=
  { searchInput := true, searchSuggestions := some { display := .hidden, innerHTML := [] },
    minPrice := true, maxPrice := true, filterForm := true }

/-- A document with the search input but without the suggestions panel. -/
def noPanelDom : Dom :=
  { searchInput := true, searchSuggestions := none,
    minPrice := true, maxPrice := true, filterForm := true }

/-- A product suggestion with a category. -/
def shoe : Suggestion :=
  { type_ := "product".toList, name := "Shoe".toList, category := some "Footwear".toList,
    url := "/p/1".toList }

/-- The page just after construction, with the panel already visible. -/
def visibleWorld : World :=
  { new fullDom with
    suggestionsContainer := some { display := .visible, innerHTML := renderRow shoe } }

/-! ## Invariants of the timer queue -/

/-- The second state differs from the first at most in the panel, the clock
independent logs and the count of requests in flight. -/
structure Quiet (w w1 : World) : Prop where
  now : w1.now = w.now
  nextTimerId : w1.nextTimerId = w.nextTimerId
  timers : w1.timers = w.timers
  debounceTimeout : w1.debounceTimeout = w.debounceTimeout
  minTimeout : w1.minTimeout = w.minTimeout
  maxTimeout : w1.maxTimeout = w.maxTimeout
  fetches : w1.fetches = w.fetches
  submits : w1.submits = w.submits
  searchListeners : w1.searchListeners = w.searchListeners
  priceListeners : w1.priceListeners = w.priceListeners
  filterForm : w1.filterForm = w.filterForm
  searchInput : w1.searchInput = w.searchInput

/-- The second state has no timer the first lacks, and the same handles. -/
structure Shrink (w w1 : World) : Prop where
  timers : w1.timers.Sublist w.timers
  nextTimerId : w1.nextTimerId = w.nextTimerId
  debounceTimeout : w1.debounceTimeout = w.debounceTimeout
  minTimeout : w1.minTimeout = w.minTimeout
  maxTimeout : w1.maxTimeout = w.maxTimeout
  searchListeners : w1.searchListeners = w.searchListeners
  priceListeners : w1.priceListeners = w.priceListeners
  filterForm : w1.filterForm = w.filterForm

/-- Every pending fetch timer is the one `debounceTimeout` holds, and there is
at most one. -/
def OneTimer (w : World) : Prop :=
  (fetchTimers w).length ≤ 1 ∧ ∀ t ∈ fetchTimers w, w.debounceTimeout = some t.id

/-- Handles are handed out in increasing order: every pending timer and every
stored handle is below the next handle. -/
def HandlesFresh (w : World) : Prop :=
  (∀ t ∈ w.timers, t.id < w.nextTimerId) ∧
  (∀ h, w.debounceTimeout = some h ∨ w.minTimeout = some h ∨ w.maxTimeout = some h →
    h < w.nextTimerId)

/-- The handle `k` has been handed out and is not pending. -/
def Gone (k : Nat) (w : World) : Prop :=
  k < w.nextTimerId ∧ ∀ t ∈ w.timers, t.id ≠ k

/-- The second state has one new timer `nt`, with the next handle, on top of
some of the timers of the first; each stored handle is kept or is the new
one. -/
structure Grow (w w1 : World) (nt : Timer) : Prop where
  timers : ∃ l : List Timer, l.Sublist w.timers ∧ w1.timers = l ++ [nt]
  id : nt.id = w.nextTimerId
  nextTimerId : w1.nextTimerId = w.nextTimerId + 1
  debounceTimeout : w1.debounceTimeout = w.debounceTimeout ∨ w1.debounceTimeout = some nt.id
  minTimeout : w1.minTimeout = w.minTimeout ∨ w1.minTimeout = some nt.id
  maxTimeout : w1.maxTimeout = w.maxTimeout ∨ w1.maxTimeout = some nt.id
  searchListeners : w1.searchListeners = w.searchListeners
  priceListeners : w1.priceListeners = w.priceListeners
  filterForm : w1.filterForm = w.filterForm

/-- The timer is the one its owner still holds the handle of: `debounceTimeout`
for a fetch timer, the `timeout` variable of its debounced handler for a
`later` timer. -/
def HandleOf (w : World) (tm : Timer) : Prop :=
  match tm.action with
  | .fetch _ => w.debounceTimeout = some tm.id
  | .later k => w.timeoutOf k = some tm.id

/-- The invariant of the timer queue: pending handles are distinct, every
pending timer is the one its owner holds, and handles are handed out in
increasing order. -/
structure WF (w : World) : Prop where
  nodup : (w.timers.map Timer.id).Nodup
  owner : ∀ tm ∈ w.timers, HandleOf w tm
  fresh : HandlesFresh w

/-! ## Rendering -/

theorem Quiet.quiet_refl (w : World) : Quiet w w :=
  ⟨rfl, rfl, rfl, rfl, rfl, rfl, rfl, rfl, rfl, rfl, rfl, rfl⟩

theorem Quiet.quiet_trans {a b c : World} (h1 : Quiet a b) (h2 : Quiet b c) : Quiet a c :=
  ⟨h2.now.trans h1.now, h2.nextTimerId.trans h1.nextTimerId, h2.timers.trans h1.timers,
   h2.debounceTimeout.trans h1.debounceTimeout, h2.minTimeout.trans h1.minTimeout,
   h2.maxTimeout.trans h1.maxTimeout, h2.fetches.trans h1.fetches,
   h2.submits.trans h1.submits, h2.searchListeners.trans h1.searchListeners,
   h2.priceListeners.trans h1.priceListeners, h2.filterForm.trans h1.filterForm,
   h2.searchInput.trans h1.searchInput⟩

theorem quiet_setDisplayNone (w : World) : Quiet w (setDisplayNone w).1 := by
  unfold setDisplayNone
  split <;> exact ⟨rfl, rfl, rfl, rfl, rfl, rfl, rfl, rfl, rfl, rfl, rfl, rfl⟩

theorem quiet_hideSuggestions (w : World) (event : Option Node) :
    Quiet w (hideSuggestions w event).1 := by
  unfold hideSuggestions
  split
  · exact quiet_setDisplayNone w
  · split
    · exact Quiet.quiet_refl w
    · split
      · exact Quiet.quiet_refl w
      · split
        · exact Quiet.quiet_refl w
        · split
          · exact Quiet.quiet_refl w
          · exact quiet_setDisplayNone w

theorem quiet_showSuggestions (w : World) : Quiet w (showSuggestions w).1 := by
  unfold showSuggestions
  split
  · exact Quiet.quiet_refl w
  · split
    · exact ⟨rfl, rfl, rfl, rfl, rfl, rfl, rfl, rfl, rfl, rfl, rfl, rfl⟩
    · exact Quiet.quiet_refl w

theorem quiet_displaySuggestions (w : World) (suggestions : Option (List Suggestion)) :
    Quiet w (displaySuggestions w suggestions).1 := by
  unfold displaySuggestions
  split
  · exact quiet_hideSuggestions w none
  · exact quiet_hideSuggestions w none
  · split
    · exact Quiet.quiet_refl w
    · dsimp only
      refine Quiet.quiet_trans ?_ (quiet_showSuggestions _)
      exact ⟨rfl, rfl, rfl, rfl, rfl, rfl, rfl, rfl, rfl, rfl, rfl, rfl⟩

theorem quiet_fetchSuggestionsResume (w : World) (o : FetchOutcome) :
    Quiet w (fetchSuggestionsResume w o).1 := by
  have htry : Quiet w (fetchSuggestionsTry w o).1 := by
    unfold fetchSuggestionsTry
    split
    · exact Quiet.quiet_refl w
    · split
      · exact Quiet.quiet_refl w
      · exact Quiet.quiet_refl w
      · exact quiet_displaySuggestions w _
  unfold fetchSuggestionsResume
  split
  · rename_i w1 heq
    rw [heq] at htry
    exact htry
  · rename_i w1 e heq
    rw [heq] at htry
    exact Quiet.quiet_trans htry ⟨rfl, rfl, rfl, rfl, rfl, rfl, rfl, rfl, rfl, rfl, rfl, rfl⟩

theorem quiet_settleCompletion (r : World × Completion) : Quiet r.1 (settleCompletion r) := by
  unfold settleCompletion
  split
  · exact Quiet.quiet_refl _
  · exact ⟨rfl, rfl, rfl, rfl, rfl, rfl, rfl, rfl, rfl, rfl, rfl, rfl⟩

theorem Shrink.shrink_refl (w : World) : Shrink w w :=
  ⟨List.Sublist.refl _, rfl, rfl, rfl, rfl, rfl, rfl, rfl⟩

theorem Shrink.shrink_trans {a b c : World} (h1 : Shrink a b) (h2 : Shrink b c) : Shrink a c :=
  ⟨h2.timers.trans h1.timers, h2.nextTimerId.trans h1.nextTimerId,
   h2.debounceTimeout.trans h1.debounceTimeout, h2.minTimeout.trans h1.minTimeout,
   h2.maxTimeout.trans h1.maxTimeout, h2.searchListeners.trans h1.searchListeners,
   h2.priceListeners.trans h1.priceListeners, h2.filterForm.trans h1.filterForm⟩

theorem Quiet.to_shrink {w w1 : World} (h : Quiet w w1) : Shrink w w1 :=
  ⟨h.timers ▸ List.Sublist.refl _, h.nextTimerId, h.debounceTimeout, h.minTimeout,
   h.maxTimeout, h.searchListeners, h.priceListeners, h.filterForm⟩

theorem shrink_clearTimeout (w : World) (handle : Option Nat) :
    Shrink w (clearTimeout w handle) := by
  unfold clearTimeout
  split
  · exact Shrink.shrink_refl w
  · exact ⟨List.filter_sublist _, rfl, rfl, rfl, rfl, rfl, rfl, rfl⟩

theorem shrink_submitFilterForm (w : World) : Shrink w (submitFilterForm w).1 := by
  unfold submitFilterForm
  split
  · exact ⟨List.Sublist.refl _, rfl, rfl, rfl, rfl, rfl, rfl, rfl⟩
  · exact Shrink.shrink_refl w

theorem shrink_runCallback (w : World) (a : TimerAction) : Shrink w (runCallback w a).1 := by
  cases a with
  | fetch q => exact ⟨List.Sublist.refl _, rfl, rfl, rfl, rfl, rfl, rfl, rfl⟩
  | later k =>
    exact Shrink.shrink_trans (shrink_clearTimeout w _) (shrink_submitFilterForm _)

theorem shrink_fireTimer (w : World) (tm : Timer) : Shrink w (fireTimer w tm) := by
  unfold fireTimer
  refine Shrink.shrink_trans ?_ (quiet_settleCompletion _).to_shrink
  refine Shrink.shrink_trans ?_ (shrink_runCallback _ _)
  exact ⟨List.filter_sublist _, rfl, rfl, rfl, rfl, rfl, rfl, rfl⟩

theorem shrink_fireDue (fuel : Nat) (w : World) (t : Nat) : Shrink w (fireDue fuel w t) := by
  induction fuel generalizing w with
  | zero => exact Shrink.shrink_refl w
  | succ n ih =>
    unfold fireDue
    split
    · exact Shrink.shrink_refl w
    · exact Shrink.shrink_trans (shrink_fireTimer w _) (ih _)

theorem shrink_tick (w : World) (t : Nat) : Shrink w (tick w t) := by
  unfold tick
  exact Shrink.shrink_trans (shrink_fireDue _ w t) ⟨List.Sublist.refl _, rfl, rfl, rfl, rfl, rfl, rfl, rfl⟩

theorem fetchTimers_sublist {w w1 : World} (h : w1.timers.Sublist w.timers) :
    (fetchTimers w1).Sublist (fetchTimers w) :=
  h.filter _

theorem OneTimer.of_shrink {w w1 : World} (hs : Shrink w w1) (h : OneTimer w) : OneTimer w1 := by
  have hsub := fetchTimers_sublist hs.timers
  refine ⟨le_trans hsub.length_le h.1, ?_⟩
  intro t ht
  rw [hs.debounceTimeout]
  exact h.2 t (hsub.subset ht)

theorem HandlesFresh.fresh_of_shrink {w w1 : World} (hs : Shrink w w1) (h : HandlesFresh w) :
    HandlesFresh w1 := by
  refine ⟨?_, ?_⟩
  · intro t ht
    rw [hs.nextTimerId]
    exact h.1 t (hs.timers.subset ht)
  · intro k hk
    rw [hs.nextTimerId]
    rw [hs.debounceTimeout, hs.minTimeout, hs.maxTimeout] at hk
    exact h.2 k hk

theorem Gone.gone_of_shrink {k : Nat} {w w1 : World} (hs : Shrink w w1) (h : Gone k w) : Gone k w1 := by
  refine ⟨?_, ?_⟩
  · rw [hs.nextTimerId]
    exact h.1
  · intro t ht
    exact h.2 t (hs.timers.subset ht)

/-- After `clearTimeout(this.debounceTimeout)` no fetch timer is pending. -/
theorem fetchTimers_clear_debounce (w : World) (h : OneTimer w) :
    fetchTimers (clearTimeout w w.debounceTimeout) = [] := by
  unfold clearTimeout
  cases hd : w.debounceTimeout with
  | none =>
    simp only
    cases hf : fetchTimers w with
    | nil => rfl
    | cons t ts =>
      have := h.2 t (by rw [hf]; exact List.mem_cons_self _ _)
      rw [hd] at this
      cases this
  | some k =>
    simp only [fetchTimers, List.filter_filter]
    rw [List.filter_eq_nil_iff]
    intro t ht hc
    have hft : t ∈ fetchTimers w := by
      simp only [fetchTimers, List.mem_filter]
      refine ⟨ht, ?_⟩
      simp only [Bool.and_eq_true] at hc
      exact hc.1
    have := h.2 t hft
    rw [hd] at this
    simp only [Bool.and_eq_true] at hc
    have hne := hc.2
    simp only [Option.some.injEq] at this
    simp [this] at hne

theorem HandlesFresh.fresh_of_grow {w w1 : World} {nt : Timer} (hg : Grow w w1 nt)
    (h : HandlesFresh w) : HandlesFresh w1 := by
  obtain ⟨l, hl, htm⟩ := hg.timers
  refine ⟨?_, ?_⟩
  · intro t ht
    rw [hg.nextTimerId]
    rw [htm, List.mem_append, List.mem_singleton] at ht
    rcases ht with ht | ht
    · exact Nat.lt_succ_of_lt (h.1 t (hl.subset ht))
    · rw [ht, hg.id]
      exact Nat.lt_succ_self _
  · intro k hk
    rw [hg.nextTimerId]
    have hnew : ∀ x : Option Nat, x = some nt.id → x = some k → k < w.nextTimerId + 1 := by
      intro x hx hxk
      rw [hx] at hxk
      simp only [Option.some.injEq] at hxk
      rw [← hxk, hg.id]
      exact Nat.lt_succ_self _
    rcases hk with hk | hk | hk
    · rcases hg.debounceTimeout with hd | hd
      · exact Nat.lt_succ_of_lt (h.2 k (Or.inl (hd ▸ hk)))
      · exact hnew _ hd hk
    · rcases hg.minTimeout with hd | hd
      · exact Nat.lt_succ_of_lt (h.2 k (Or.inr (Or.inl (hd ▸ hk))))
      · exact hnew _ hd hk
    · rcases hg.maxTimeout with hd | hd
      · exact Nat.lt_succ_of_lt (h.2 k (Or.inr (Or.inr (hd ▸ hk))))
      · exact hnew _ hd hk

theorem Gone.gone_of_grow {k : Nat} {w w1 : World} {nt : Timer} (hg : Grow w w1 nt)
    (h : Gone k w) : Gone k w1 := by
  obtain ⟨l, hl, htm⟩ := hg.timers
  refine ⟨?_, ?_⟩
  · rw [hg.nextTimerId]
    exact Nat.lt_succ_of_lt h.1
  · intro t ht
    rw [htm, List.mem_append, List.mem_singleton] at ht
    rcases ht with ht | ht
    · exact h.2 t (hl.subset ht)
    · rw [ht, hg.id]
      exact Nat.ne_of_gt h.1

theorem clearTimeout_now (w : World) (handle : Option Nat) :
    (clearTimeout w handle).now = w.now := by
  unfold clearTimeout
  split <;> rfl

theorem handleInput_short (w : World) (value : JSString) (h : jsLength (jsTrim value) < 2) :
    handleInput w value = hideSuggestions (clearTimeout w w.debounceTimeout) none := by
  simp [handleInput, h]

theorem handleInput_long (w : World) (value : JSString) (h : ¬ jsLength (jsTrim value) < 2) :
    handleInput w value =
      ({ clearTimeout w w.debounceTimeout with
          timers := (clearTimeout w w.debounceTimeout).timers ++
            [{ id := w.nextTimerId, due := w.now + 300, action := .fetch (jsTrim value) }],
          nextTimerId := w.nextTimerId + 1,
          debounceTimeout := some w.nextTimerId }, .normal) := by
  have h1 := (shrink_clearTimeout w w.debounceTimeout).nextTimerId
  have h2 := clearTimeout_now w w.debounceTimeout
  simp [handleInput, h, setTimeout, h1, h2]

theorem grow_handleInput (w : World) (value : JSString) (h : ¬ jsLength (jsTrim value) < 2) :
    Grow w (handleInput w value).1
      { id := w.nextTimerId, due := w.now + 300, action := .fetch (jsTrim value) } := by
  rw [handleInput_long w value h]
  have hs := shrink_clearTimeout w w.debounceTimeout
  exact ⟨⟨_, hs.timers, rfl⟩, rfl, rfl, Or.inr rfl, Or.inl hs.minTimeout, Or.inl hs.maxTimeout,
    hs.searchListeners, hs.priceListeners, hs.filterForm⟩

theorem shrink_handleInput (w : World) (value : JSString) (h : jsLength (jsTrim value) < 2) :
    Shrink w (handleInput w value).1 := by
  rw [handleInput_short w value h]
  exact Shrink.shrink_trans (shrink_clearTimeout w _) (quiet_hideSuggestions _ _).to_shrink

theorem grow_executedFunction (w : World) (which : PriceInput) :
    Grow w (executedFunction w which).1
      { id := w.nextTimerId, due := w.now + 1000, action := .later which } := by
  have hs := shrink_clearTimeout w (w.timeoutOf which)
  have h2 := clearTimeout_now w (w.timeoutOf which)
  have h1 := hs.nextTimerId
  cases which
  · simp only [executedFunction, setTimeout, World.setTimeoutOf, h1, h2]
    exact ⟨⟨_, hs.timers, rfl⟩, rfl, rfl, Or.inl hs.debounceTimeout, Or.inr rfl,
      Or.inl hs.maxTimeout, hs.searchListeners, hs.priceListeners, hs.filterForm⟩
  · simp only [executedFunction, setTimeout, World.setTimeoutOf, h1, h2]
    exact ⟨⟨_, hs.timers, rfl⟩, rfl, rfl, Or.inl hs.debounceTimeout, Or.inl hs.minTimeout,
      Or.inr rfl, hs.searchListeners, hs.priceListeners, hs.filterForm⟩

theorem oneTimer_handleInput {w : World} (value : JSString) (h : OneTimer w) :
    OneTimer (handleInput w value).1 := by
  by_cases hq : jsLength (jsTrim value) < 2
  · exact h.of_shrink (shrink_handleInput w value hq)
  · rw [handleInput_long w value hq]
    have hc := fetchTimers_clear_debounce w h
    have hft : fetchTimers
        { clearTimeout w w.debounceTimeout with
          timers := (clearTimeout w w.debounceTimeout).timers ++
            [{ id := w.nextTimerId, due := w.now + 300, action := .fetch (jsTrim value) }],
          nextTimerId := w.nextTimerId + 1,
          debounceTimeout := some w.nextTimerId } =
        [{ id := w.nextTimerId, due := w.now + 300, action := .fetch (jsTrim value) }] := by
      unfold fetchTimers at hc ⊢
      simp only [List.filter_append, hc]
      rfl
    refine ⟨?_, ?_⟩
    · rw [hft]
      exact Nat.le_refl 1
    · intro t ht
      rw [hft, List.mem_singleton] at ht
      rw [ht]

theorem oneTimer_executedFunction {w : World} (which : PriceInput) (h : OneTimer w) :
    OneTimer (executedFunction w which).1 := by
  have hs := shrink_clearTimeout w (w.timeoutOf which)
  have h1 := h.of_shrink hs
  have hft : fetchTimers (executedFunction w which).1 =
      fetchTimers (clearTimeout w (w.timeoutOf which)) := by
    cases which <;>
      simp [executedFunction, setTimeout, World.setTimeoutOf, fetchTimers, List.filter_append]
  have hd : (executedFunction w which).1.debounceTimeout =
      (clearTimeout w (w.timeoutOf which)).debounceTimeout := by
    cases which <;> simp [executedFunction, setTimeout, World.setTimeoutOf]
  refine ⟨?_, ?_⟩
  · rw [hft]
    exact h1.1
  · intro t ht
    rw [hft] at ht
    rw [hd]
    exact h1.2 t ht

/-- A turn of the event loop either adds no timer, or adds exactly one with
the next handle. -/
theorem dispatch_shrink_or_grow (w : World) (ev : Event) :
    Shrink w (dispatch w ev) ∨
      ∃ (w1 : World) (nt : Timer), Grow w w1 nt ∧ Shrink w1 (dispatch w ev) := by
  cases ev with
  | tick t => exact Or.inl (shrink_tick w t)
  | input value =>
    simp only [dispatch]
    split
    · by_cases hq : jsLength (jsTrim value) < 2
      · exact Or.inl ((shrink_handleInput w value hq).shrink_trans (quiet_settleCompletion _).to_shrink)
      · exact Or.inr ⟨_, _, grow_handleInput w value hq, (quiet_settleCompletion _).to_shrink⟩
    · exact Or.inl (Shrink.shrink_refl w)
  | focus =>
    simp only [dispatch]
    split
    · exact Or.inl ((quiet_showSuggestions w).quiet_trans (quiet_settleCompletion _)).to_shrink
    · exact Or.inl (Shrink.shrink_refl w)
  | click target =>
    simp only [dispatch]
    split
    · exact Or.inl ((quiet_hideSuggestions w _).quiet_trans (quiet_settleCompletion _)).to_shrink
    · exact Or.inl (Shrink.shrink_refl w)
  | change which =>
    simp only [dispatch]
    split
    · exact Or.inr ⟨_, _, grow_executedFunction w which, (quiet_settleCompletion _).to_shrink⟩
    · exact Or.inl (Shrink.shrink_refl w)
  | settle o =>
    simp only [dispatch]
    split
    · refine Or.inl (Shrink.shrink_trans ?_
        ((quiet_fetchSuggestionsResume _ o).quiet_trans (quiet_settleCompletion _)).to_shrink)
      exact ⟨List.Sublist.refl _, rfl, rfl, rfl, rfl, rfl, rfl, rfl⟩
    · exact Or.inl (Shrink.shrink_refl w)

/-- Every turn of the event loop keeps the invariant of the fetch timer. -/
theorem oneTimer_dispatch {w : World} (ev : Event) (h : OneTimer w) :
    OneTimer (dispatch w ev) := by
  cases ev with
  | input value =>
    simp only [dispatch]
    split
    · exact (oneTimer_handleInput value h).of_shrink (quiet_settleCompletion _).to_shrink
    · exact h
  | change which =>
    simp only [dispatch]
    split
    · exact (oneTimer_executedFunction which h).of_shrink (quiet_settleCompletion _).to_shrink
    · exact h
  | tick t => exact h.of_shrink (shrink_tick w t)
  | focus =>
    simp only [dispatch]
    split
    · exact h.of_shrink ((quiet_showSuggestions w).quiet_trans (quiet_settleCompletion _)).to_shrink
    · exact h
  | click target =>
    simp only [dispatch]
    split
    · exact h.of_shrink ((quiet_hideSuggestions w _).quiet_trans (quiet_settleCompletion _)).to_shrink
    · exact h
  | settle o =>
    simp only [dispatch]
    split
    · refine h.of_shrink (Shrink.shrink_trans ?_
        ((quiet_fetchSuggestionsResume _ o).quiet_trans (quiet_settleCompletion _)).to_shrink)
      exact ⟨List.Sublist.refl _, rfl, rfl, rfl, rfl, rfl, rfl, rfl⟩
    · exact h

/-- Every turn of the event loop hands out handles in increasing order. -/
theorem handlesFresh_dispatch {w : World} (ev : Event) (h : HandlesFresh w) :
    HandlesFresh (dispatch w ev) := by
  rcases dispatch_shrink_or_grow w ev with hs | ⟨w1, nt, hg, hs⟩
  · exact h.fresh_of_shrink hs
  · exact (h.fresh_of_grow hg).fresh_of_shrink hs

/-- A handle that is no longer pending stays so through every turn. -/
theorem gone_dispatch {k : Nat} {w : World} (ev : Event) (h : Gone k w) :
    Gone k (dispatch w ev) := by
  rcases dispatch_shrink_or_grow w ev with hs | ⟨w1, nt, hg, hs⟩
  · exact h.gone_of_shrink hs
  · exact (h.gone_of_grow hg).gone_of_shrink hs

theorem oneTimer_run {w : World} (events : List Event) (h : OneTimer w) :
    OneTimer (run w events) := by
  induction events generalizing w with
  | nil => exact h
  | cons ev rest ih => exact ih (oneTimer_dispatch ev h)

theorem handlesFresh_run {w : World} (events : List Event) (h : HandlesFresh w) :
    HandlesFresh (run w events) := by
  induction events generalizing w with
  | nil => exact h
  | cons ev rest ih => exact ih (handlesFresh_dispatch ev h)

theorem gone_run {k : Nat} {w : World} (events : List Event) (h : Gone k w) :
    Gone k (run w events) := by
  induction events generalizing w with
  | nil => exact h
  | cons ev rest ih => exact ih (gone_dispatch ev h)

/-- The listeners `init` registered and the presence of the form do not
change. -/
theorem dispatch_listeners (w : World) (ev : Event) :
    (dispatch w ev).searchListeners = w.searchListeners ∧
    (dispatch w ev).priceListeners = w.priceListeners ∧
    (dispatch w ev).filterForm = w.filterForm := by
  rcases dispatch_shrink_or_grow w ev with hs | ⟨w1, nt, hg, hs⟩
  · exact ⟨hs.searchListeners, hs.priceListeners, hs.filterForm⟩
  · exact ⟨hs.searchListeners.trans hg.searchListeners,
      hs.priceListeners.trans hg.priceListeners, hs.filterForm.trans hg.filterForm⟩

theorem run_listeners (w : World) (events : List Event) :
    (run w events).searchListeners = w.searchListeners ∧
    (run w events).priceListeners = w.priceListeners ∧
    (run w events).filterForm = w.filterForm := by
  induction events generalizing w with
  | nil => exact ⟨rfl, rfl, rfl⟩
  | cons ev rest ih =>
    have h1 := dispatch_listeners w ev
    have h2 := ih (dispatch w ev)
    exact ⟨h2.1.trans h1.1, h2.2.1.trans h1.2.1, h2.2.2.trans h1.2.2⟩

theorem new_listeners (dom : Dom) :
    (new dom).searchListeners = dom.searchInput ∧
    (new dom).priceListeners = (dom.minPrice && dom.maxPrice) ∧
    (new dom).filterForm = dom.filterForm := by
  cases dom with
  | mk si ss mn mx ff =>
    cases si <;> cases mn <;> cases mx <;> exact ⟨rfl, rfl, rfl⟩

theorem new_timers (dom : Dom) :
    (new dom).timers = [] ∧ (new dom).debounceTimeout = none ∧
    (new dom).minTimeout = none ∧ (new dom).maxTimeout = none := by
  unfold new init initPriceFilters
  split <;> split <;> exact ⟨rfl, rfl, rfl, rfl⟩

theorem oneTimer_new (dom : Dom) : OneTimer (new dom) := by
  have h := new_timers dom
  unfold OneTimer fetchTimers
  rw [h.1]
  exact ⟨Nat.zero_le _, fun t ht => absurd ht (List.not_mem_nil t)⟩

theorem handlesFresh_new (dom : Dom) : HandlesFresh (new dom) := by
  have h := new_timers dom
  refine ⟨?_, ?_⟩
  · rw [h.1]
    exact fun t ht => absurd ht (List.not_mem_nil t)
  · intro k hk
    rw [h.2.1, h.2.2.1, h.2.2.2] at hk
    simp at hk

theorem timeoutOf_congr {w w1 : World} (hmin : w1.minTimeout = w.minTimeout)
    (hmax : w1.maxTimeout = w.maxTimeout) (k : PriceInput) :
    w1.timeoutOf k = w.timeoutOf k := by
  cases k
  · exact hmin
  · exact hmax

theorem handleOf_congr {w w1 : World} {tm : Timer}
    (hd : w1.debounceTimeout = w.debounceTimeout) (hmin : w1.minTimeout = w.minTimeout)
    (hmax : w1.maxTimeout = w.maxTimeout) (h : HandleOf w tm) : HandleOf w1 tm := by
  unfold HandleOf at h ⊢
  split
  · rename_i q hq
    rw [hq] at h
    rw [hd]
    exact h
  · rename_i k hk
    rw [hk] at h
    rw [timeoutOf_congr hmin hmax k]
    exact h

theorem WF.wf_of_shrink {w w1 : World} (hs : Shrink w w1) (h : WF w) : WF w1 :=
  ⟨(hs.timers.map Timer.id).nodup h.nodup,
   fun tm htm => handleOf_congr hs.debounceTimeout hs.minTimeout hs.maxTimeout
     (h.owner tm (hs.timers.subset htm)),
   h.fresh.fresh_of_shrink hs⟩

theorem wf_new (dom : Dom) : WF (new dom) := by
  have h := new_timers dom
  refine ⟨?_, ?_, handlesFresh_new dom⟩
  · rw [h.1]
    exact List.nodup_nil
  · rw [h.1]
    exact fun tm htm => absurd htm (List.not_mem_nil _)

/-- Queueing a fresh timer keeps the handles distinct. -/
theorem nodup_append_fresh (l : List Timer) (n : Nat) (nt : Timer) (hid : nt.id = n)
    (hl : (l.map Timer.id).Nodup) (hlt : ∀ tm ∈ l, tm.id < n) :
    ((l ++ [nt]).map Timer.id).Nodup := by
  rw [List.map_append, List.map_singleton, List.nodup_append]
  refine ⟨hl, List.nodup_singleton _, ?_⟩
  intro a ha hb
  rw [List.mem_singleton] at hb
  rw [List.mem_map] at ha
  obtain ⟨tm, htm, hta⟩ := ha
  have := hlt tm htm
  omega

theorem wf_handleInput {w : World} (value : JSString) (h : WF w) :
    WF (handleInput w value).1 := by
  by_cases hq : jsLength (jsTrim value) < 2
  · exact h.wf_of_shrink (shrink_handleInput w value hq)
  · have hg := grow_handleInput w value hq
    have hfresh := h.fresh.fresh_of_grow hg
    have hs := shrink_clearTimeout w w.debounceTimeout
    have hmemc : ∀ tm ∈ (clearTimeout w w.debounceTimeout).timers,
        tm ∈ w.timers ∧ w.debounceTimeout ≠ some tm.id := by
      intro tm htm
      refine ⟨hs.timers.subset htm, ?_⟩
      intro hd
      rw [hd] at htm
      simp [clearTimeout] at htm
    rw [handleInput_long w value hq] at hfresh ⊢
    refine ⟨?_, ?_, hfresh⟩
    · exact nodup_append_fresh _ w.nextTimerId _ rfl
        ((hs.timers.map Timer.id).nodup h.nodup)
        (fun tm htm => h.fresh.1 tm (hs.timers.subset htm))
    · intro tm htm
      simp only [List.mem_append, List.mem_singleton] at htm
      rcases htm with htm | htm
      · have hold := h.owner tm (hmemc tm htm).1
        unfold HandleOf at hold ⊢
        split
        · rename_i q hq2
          rw [hq2] at hold
          exact absurd hold (hmemc tm htm).2
        · rename_i k hk
          rw [hk] at hold
          rw [← hold]
          exact timeoutOf_congr hs.minTimeout hs.maxTimeout k
      · rw [htm]
        rfl

theorem setTimeoutOf_timeoutOf_same (w : World) (k : PriceInput) (h : Option Nat) :
    (w.setTimeoutOf k h).timeoutOf k = h := by
  cases k <;> rfl

theorem setTimeoutOf_timeoutOf_other (w : World) (k j : PriceInput) (h : Option Nat)
    (hne : j ≠ k) : (w.setTimeoutOf k h).timeoutOf j = w.timeoutOf j := by
  cases k <;> cases j <;> first | rfl | exact absurd rfl hne

theorem executedFunction_eq (w : World) (which : PriceInput) :
    (executedFunction w which).1 =
      World.setTimeoutOf
        { clearTimeout w (w.timeoutOf which) with
          timers := (clearTimeout w (w.timeoutOf which)).timers ++
            [{ id := w.nextTimerId, due := w.now + 1000, action := .later which }],
          nextTimerId := w.nextTimerId + 1 }
        which (some w.nextTimerId) := by
  have h1 := (shrink_clearTimeout w (w.timeoutOf which)).nextTimerId
  have h2 := clearTimeout_now w (w.timeoutOf which)
  simp only [executedFunction, setTimeout, h1, h2]

theorem setTimeoutOf_timers (w : World) (k : PriceInput) (h : Option Nat) :
    (w.setTimeoutOf k h).timers = w.timers ∧
    (w.setTimeoutOf k h).debounceTimeout = w.debounceTimeout := by
  cases k <;> exact ⟨rfl, rfl⟩

theorem wf_executedFunction {w : World} (which : PriceInput) (h : WF w) :
    WF (executedFunction w which).1 := by
  have hg := grow_executedFunction w which
  have hfresh := h.fresh.fresh_of_grow hg
  have hs := shrink_clearTimeout w (w.timeoutOf which)
  have hmemc : ∀ tm ∈ (clearTimeout w (w.timeoutOf which)).timers,
      tm ∈ w.timers ∧ w.timeoutOf which ≠ some tm.id := by
    intro tm htm
    refine ⟨hs.timers.subset htm, ?_⟩
    intro hd
    rw [hd] at htm
    simp [clearTimeout] at htm
  rw [executedFunction_eq] at hfresh ⊢
  refine ⟨?_, ?_, hfresh⟩
  · rw [(setTimeoutOf_timers _ _ _).1]
    exact nodup_append_fresh _ w.nextTimerId _ rfl
      ((hs.timers.map Timer.id).nodup h.nodup)
      (fun tm htm => h.fresh.1 tm (hs.timers.subset htm))
  · intro tm htm
    rw [(setTimeoutOf_timers _ _ _).1] at htm
    simp only [List.mem_append, List.mem_singleton] at htm
    rcases htm with htm | htm
    · have hold := h.owner tm (hmemc tm htm).1
      unfold HandleOf at hold ⊢
      split
      · rename_i q hq2
        rw [hq2] at hold
        rw [(setTimeoutOf_timers _ _ _).2]
        rw [← hold]
        exact hs.debounceTimeout
      · rename_i k hk
        rw [hk] at hold
        have hne : k ≠ which := by
          intro hkw
          rw [hkw] at hold
          exact (hmemc tm htm).2 hold
        rw [setTimeoutOf_timeoutOf_other _ _ _ _ hne, ← hold]
        exact timeoutOf_congr hs.minTimeout hs.maxTimeout k
    · rw [htm]
      unfold HandleOf
      simp only
      exact setTimeoutOf_timeoutOf_same _ _ _

/-- Every turn of the event loop keeps the invariant of the timer queue. -/
theorem wf_dispatch {w : World} (ev : Event) (h : WF w) : WF (dispatch w ev) := by
  cases ev with
  | input value =>
    simp only [dispatch]
    split
    · exact (wf_handleInput value h).wf_of_shrink (quiet_settleCompletion _).to_shrink
    · exact h
  | change which =>
    simp only [dispatch]
    split
    · exact (wf_executedFunction which h).wf_of_shrink (quiet_settleCompletion _).to_shrink
    · exact h
  | tick t => exact h.wf_of_shrink (shrink_tick w t)
  | focus =>
    simp only [dispatch]
    split
    · exact h.wf_of_shrink
        ((quiet_showSuggestions w).quiet_trans (quiet_settleCompletion _)).to_shrink
    · exact h
  | click target =>
    simp only [dispatch]
    split
    · exact h.wf_of_shrink
        ((quiet_hideSuggestions w _).quiet_trans (quiet_settleCompletion _)).to_shrink
    · exact h
  | settle o =>
    simp only [dispatch]
    split
    · refine h.wf_of_shrink (Shrink.shrink_trans ?_
        ((quiet_fetchSuggestionsResume _ o).quiet_trans (quiet_settleCompletion _)).to_shrink)
      exact ⟨List.Sublist.refl _, rfl, rfl, rfl, rfl, rfl, rfl, rfl⟩
    · exact h

theorem wf_run {w : World} (events : List Event) (h : WF w) : WF (run w events) := by
  induction events generalizing w with
  | nil => exact h
  | cons ev rest ih => exact ih (wf_dispatch ev h)

theorem ids_inj {w : World} (h : WF w) {u tm : Timer} (hu : u ∈ w.timers)
    (htm : tm ∈ w.timers) (hid : u.id = tm.id) : u = tm :=
  List.inj_on_of_nodup_map h.nodup hu htm hid

theorem filter_ne_id_self (l : List Timer) (tm : Timer) (h : ∀ u ∈ l, u.id ≠ tm.id) :
    l.filter (fun u => u.id != tm.id) = l := by
  rw [List.filter_eq_self]
  intro u hu
  simpa using h u hu

theorem length_filter_ne_id (l : List Timer) (tm : Timer) (hnd : (l.map Timer.id).Nodup)
    (hm : tm ∈ l) : (l.filter (fun u => u.id != tm.id)).length + 1 = l.length := by
  induction l with
  | nil => exact absurd hm (List.not_mem_nil _)
  | cons a r ih =>
    rw [List.map_cons, List.nodup_cons] at hnd
    have hne : ∀ u ∈ r, u.id ≠ a.id := by
      intro u hu hua
      exact hnd.1 (hua ▸ List.mem_map_of_mem Timer.id hu)
    rcases List.mem_cons.mp hm with hta | htr
    · rw [hta]
      simp only [List.filter_cons, bne_self_eq_false, Bool.false_eq_true, if_false,
        List.length_cons]
      rw [filter_ne_id_self r a hne]
    · have hat : a.id ≠ tm.id := fun h => hne tm htr h.symm
      have hb : (a.id != tm.id) = true := by simpa using hat
      simp only [List.filter_cons, hb, if_true, List.length_cons]
      rw [ih hnd.2 htr]

theorem queries_nil : queries [] = [] := rfl

theorem fireTimer_spec (w : World) (tm : Timer) (hwf : WF w) (hm : tm ∈ w.timers) :
    (fireTimer w tm).timers = w.timers.filter (fun u => u.id != tm.id) ∧
    (fireTimer w tm).fetches = w.fetches ++ queries [tm] ∧
    (fireTimer w tm).submits =
      w.submits + (match tm.action with
        | .fetch _ => 0
        | .later _ => if w.filterForm = true then 1 else 0) ∧
    (fireTimer w tm).now = max w.now tm.due := by
  have hq := quiet_settleCompletion
    (runCallback
      { w with timers := w.timers.filter (fun t => t.id != tm.id), now := max w.now tm.due }
      tm.action)
  unfold fireTimer
  rw [hq.timers, hq.fetches, hq.submits, hq.now]
  have hown := hwf.owner tm hm
  unfold HandleOf at hown
  cases ha : tm.action with
  | fetch q =>
    simp only [runCallback, fetchSuggestionsStart, queries, List.filterMap_cons, ha,
      List.filterMap_nil, Nat.add_zero, and_self]
  | later k =>
    rw [ha] at hown
    have hk : World.timeoutOf
        { w with timers := w.timers.filter (fun t => t.id != tm.id), now := max w.now tm.due }
        k = some tm.id := by
      rw [← hown]
      cases k <;> rfl
    simp only [runCallback, later, hk, clearTimeout, submitFilterForm, queries,
      List.filterMap_cons, ha, List.filterMap_nil, List.append_nil, List.filter_filter,
      Bool.and_self]
    split <;> simp_all

theorem jsLength_append (a b : JSString) : jsLength (a ++ b) = jsLength a + jsLength b := by
  simp [jsLength, List.map_append, List.sum_append]

theorem jsLength_reverse (a : JSString) : jsLength a.reverse = jsLength a := by
  unfold jsLength
  rw [List.map_reverse, List.sum_reverse]

theorem jsLength_dropWhile_le (q : Char → Bool) (a : JSString) :
    jsLength (a.dropWhile q) ≤ jsLength a := by
  have h := List.takeWhile_append_dropWhile q a
  calc jsLength (a.dropWhile q)
      ≤ jsLength (a.takeWhile q) + jsLength (a.dropWhile q) := Nat.le_add_left _ _
    _ = jsLength (a.takeWhile q ++ a.dropWhile q) := (jsLength_append _ _).symm
    _ = jsLength a := by rw [h]

/-- Trimming never lengthens a string. -/
theorem jsLength_jsTrim_le (s : JSString) : jsLength (jsTrim s) ≤ jsLength s := by
  unfold jsTrim
  rw [jsLength_reverse]
  refine le_trans (jsLength_dropWhile_le _ _) ?_
  rw [jsLength_reverse]
  exact jsLength_dropWhile_le _ _

theorem earliest_mem {l : List Timer} {t : Timer} (h : earliest l = some t) : t ∈ l := by
  induction l generalizing t with
  | nil => simp [earliest] at h
  | cons a rest ih =>
    unfold earliest at h
    split at h
    · simp only [Option.some.injEq] at h
      rw [← h]
      exact List.mem_cons_self _ _
    · rename_i u hu
      split at h
      · simp only [Option.some.injEq] at h
        rw [← h]
        exact List.mem_cons_of_mem _ (ih hu)
      · simp only [Option.some.injEq] at h
        rw [← h]
        exact List.mem_cons_self _ _

theorem nextDue_mem {w : World} {t : Nat} {tm : Timer} (h : nextDue w t = some tm) :
    tm ∈ w.timers ∧ tm.due ≤ t := by
  have := earliest_mem h
  simpa [List.mem_filter] using this

theorem earliest_eq_none {l : List Timer} (h : earliest l = none) : l = [] := by
  cases l with
  | nil => rfl
  | cons a r =>
    unfold earliest at h
    split at h
    · cases h
    · split at h <;> cases h

/-- With nothing due by `t`, the due part of every selection is empty. -/
theorem nothing_due (w : World) (t : Nat)
    (h : w.timers.filter (fun tm => decide (tm.due ≤ t)) = []) :
    w.timers.filter (fun tm => decide (t < tm.due)) = w.timers ∧
    (fetchTimers w).filter (fun tm => decide (tm.due ≤ t)) = [] ∧
    (laterTimers w).filter (fun tm => decide (tm.due ≤ t)) = [] := by
  rw [List.filter_eq_nil_iff] at h
  refine ⟨?_, ?_, ?_⟩
  · rw [List.filter_eq_self]
    intro tm htm
    have := h tm htm
    simpa using this
  · rw [List.filter_eq_nil_iff]
    intro tm htm
    exact h tm (List.mem_filter.mp htm).1
  · rw [List.filter_eq_nil_iff]
    intro tm htm
    exact h tm (List.mem_filter.mp htm).1

theorem fetchTimers_fireTimer (w : World) (tm : Timer) (hwf : WF w) (hm : tm ∈ w.timers) :
    fetchTimers (fireTimer w tm) = (fetchTimers w).filter (fun u => u.id != tm.id) ∧
    laterTimers (fireTimer w tm) = (laterTimers w).filter (fun u => u.id != tm.id) := by
  unfold fetchTimers laterTimers
  rw [(fireTimer_spec w tm hwf hm).1]
  simp only [List.filter_filter]
  constructor <;> (apply List.filter_congr; intro x _; exact Bool.and_comm _ _)

/-- The passing of time fires exactly the due timers: the timers not yet due
stay pending, the request of the due fetch timer (there is at most one) is
issued, and every due `later` timer submits the form. -/
theorem fireDue_spec (fuel : Nat) (w : World) (t : Nat) (hwf : WF w) (hone : OneTimer w)
    (hfuel : (w.timers.filter (fun tm => decide (tm.due ≤ t))).length ≤ fuel) :
    (fireDue fuel w t).timers = w.timers.filter (fun tm => decide (t < tm.due)) ∧
    (fireDue fuel w t).fetches =
      w.fetches ++ queries ((fetchTimers w).filter (fun tm => decide (tm.due ≤ t))) ∧
    (w.filterForm = true → (fireDue fuel w t).submits =
      w.submits + ((laterTimers w).filter (fun tm => decide (tm.due ≤ t))).length) ∧
    max (fireDue fuel w t).now t = max w.now t := by
  induction fuel generalizing w with
  | zero =>
    have hd : w.timers.filter (fun tm => decide (tm.due ≤ t)) = [] :=
      List.length_eq_zero.mp (Nat.le_zero.mp hfuel)
    have hn := nothing_due w t hd
    simp only [fireDue, hn.1, hn.2.1, hn.2.2, queries_nil, List.append_nil, List.length_nil,
      Nat.add_zero, implies_true, and_self]
  | succ n ih =>
    unfold fireDue
    split
    · rename_i hnone
      have hd : w.timers.filter (fun tm => decide (tm.due ≤ t)) = [] := earliest_eq_none hnone
      have hn := nothing_due w t hd
      simp only [hn.1, hn.2.1, hn.2.2, queries_nil, List.append_nil, List.length_nil,
        Nat.add_zero, implies_true, and_self]
    · rename_i tm hsome
      have hmem := nextDue_mem hsome
      have hsp := fireTimer_spec w tm hwf hmem.1
      have hft := fetchTimers_fireTimer w tm hwf hmem.1
      have hsh := shrink_fireTimer w tm
      have hwf1 := hwf.wf_of_shrink hsh
      have hone1 := hone.of_shrink hsh
      have hdue1 : (fireTimer w tm).timers.filter (fun u => decide (u.due ≤ t)) =
          (w.timers.filter (fun u => decide (u.due ≤ t))).filter (fun u => u.id != tm.id) := by
        rw [hsp.1]
        simp only [List.filter_filter]
        apply List.filter_congr
        intro x _
        exact Bool.and_comm _ _
      have hmemD : tm ∈ w.timers.filter (fun u => decide (u.due ≤ t)) := by
        rw [List.mem_filter]
        exact ⟨hmem.1, by simpa using hmem.2⟩
      have hlen := length_filter_ne_id _ tm
        ((List.filter_sublist w.timers).map Timer.id |>.nodup hwf.nodup) hmemD
      have hfuel1 : ((fireTimer w tm).timers.filter (fun u => decide (u.due ≤ t))).length ≤ n := by
        rw [hdue1]
        omega
      have h := ih (fireTimer w tm) hwf1 hone1 hfuel1
      refine ⟨?_, ?_, ?_, ?_⟩
      · rw [h.1, hsp.1, List.filter_filter]
        apply List.filter_congr
        intro u hu
        by_cases hlt : t < u.due
        · have hne : u.id ≠ tm.id := by
            intro hid
            have := ids_inj hwf hu hmem.1 hid
            rw [this] at hlt
            omega
          simp [hlt, hne]
        · simp [hlt]
      · rw [h.2.1, hsp.2.1, hft.1, List.append_assoc]
        congr 1
        cases ha : tm.action with
        | fetch q =>
          have hin : tm ∈ fetchTimers w := by
            simp only [fetchTimers, List.mem_filter]
            exact ⟨hmem.1, by rw [ha]⟩
          have hall : fetchTimers w = [tm] := by
            have hl := hone.1
            cases hf : fetchTimers w with
            | nil => rw [hf] at hin; exact absurd hin (List.not_mem_nil _)
            | cons a r =>
              rw [hf] at hin hl
              cases r with
              | nil =>
                rw [List.mem_singleton] at hin
                rw [hin]
              | cons b r2 =>
                simp only [List.length_cons] at hl
                omega
          rw [hall]
          have hd : decide (tm.due ≤ t) = true := by simpa using hmem.2
          simp [List.filter_cons, hd, queries, ha]
        | later k =>
          have hself : (fetchTimers w).filter (fun u => u.id != tm.id) = fetchTimers w := by
            apply filter_ne_id_self
            intro u hu hid
            have hu2 := List.mem_filter.mp hu
            have := ids_inj hwf hu2.1 hmem.1 hid
            rw [this, ha] at hu2
            exact absurd hu2.2 (by simp)
          rw [hself]
          simp [queries, ha]
      · intro hform
        have hform1 : (fireTimer w tm).filterForm = true := by
          rw [hsh.filterForm]
          exact hform
        rw [h.2.2.1 hform1, hsp.2.2.1, hft.2]
        cases ha : tm.action with
        | fetch q =>
          have hself : (laterTimers w).filter (fun u => u.id != tm.id) = laterTimers w := by
            apply filter_ne_id_self
            intro u hu hid
            have hu2 := List.mem_filter.mp hu
            have := ids_inj hwf hu2.1 hmem.1 hid
            rw [this, ha] at hu2
            exact absurd hu2.2 (by simp)
          rw [hself]
          simp only [Nat.add_zero]
        | later k =>
          simp only [hform, if_true]
          have hcomm : ((laterTimers w).filter (fun u => u.id != tm.id)).filter
              (fun u => decide (u.due ≤ t)) =
              ((laterTimers w).filter (fun u => decide (u.due ≤ t))).filter
                (fun u => u.id != tm.id) := by
            simp only [List.filter_filter]
            apply List.filter_congr
            intro x _
            exact Bool.and_comm _ _
          have hmemL : tm ∈ (laterTimers w).filter (fun u => decide (u.due ≤ t)) := by
            simp only [laterTimers, List.mem_filter]
            exact ⟨⟨hmem.1, by rw [ha]⟩, by simpa using hmem.2⟩
          have hsub : ((laterTimers w).filter (fun u => decide (u.due ≤ t))).Sublist w.timers :=
            (List.filter_sublist _).trans (List.filter_sublist _)
          have hlen2 := length_filter_ne_id _ tm ((hsub.map Timer.id).nodup hwf.nodup) hmemL
          rw [hcomm]
          omega
      · rw [h.2.2.2, hsp.2.2.2]
        have := hmem.2
        omega

/-- The passing of time to `t`, in a state that satisfies the invariants. -/
theorem tick_spec (w : World) (t : Nat) (hwf : WF w) (hone : OneTimer w) :
    (tick w t).timers = w.timers.filter (fun tm => decide (t < tm.due)) ∧
    (tick w t).fetches =
      w.fetches ++ queries ((fetchTimers w).filter (fun tm => decide (tm.due ≤ t))) ∧
    (w.filterForm = true → (tick w t).submits =
      w.submits + ((laterTimers w).filter (fun tm => decide (tm.due ≤ t))).length) ∧
    (tick w t).now = max w.now t := by
  have h := fireDue_spec w.timers.length w t hwf hone (List.length_filter_le _ _)
  unfold tick
  exact ⟨h.1, h.2.1, h.2.2.1, h.2.2.2⟩

theorem submitFilterForm_fetches (w : World) : (submitFilterForm w).1.fetches = w.fetches := by
  unfold submitFilterForm
  split <;> rfl

theorem clearTimeout_fetches (w : World) (handle : Option Nat) :
    (clearTimeout w handle).fetches = w.fetches := by
  unfold clearTimeout
  split <;> rfl

theorem fireTimer_fetches_later (w : World) (tm : Timer) (k : PriceInput)
    (h : tm.action = .later k) : (fireTimer w tm).fetches = w.fetches := by
  unfold fireTimer
  rw [(quiet_settleCompletion _).fetches, h]
  simp only [runCallback, later]
  rw [submitFilterForm_fetches, clearTimeout_fetches]

theorem fireDue_fetches (fuel : Nat) (w : World) (t : Nat) (h : fetchTimers w = []) :
    (fireDue fuel w t).fetches = w.fetches := by
  induction fuel generalizing w with
  | zero => rfl
  | succ n ih =>
    unfold fireDue
    split
    · rfl
    · rename_i tm htm
      have hmem := (nextDue_mem htm).1
      have hnext : fetchTimers (fireTimer w tm) = [] := by
        have hsub := fetchTimers_sublist (shrink_fireTimer w tm).timers
        rw [h] at hsub
        exact List.sublist_nil.mp hsub
      rw [ih _ hnext]
      cases ha : tm.action with
      | fetch q =>
        have : tm ∈ fetchTimers w := by
          simp only [fetchTimers, List.mem_filter]
          exact ⟨hmem, by rw [ha]⟩
        rw [h] at this
        exact absurd this (List.not_mem_nil _)
      | later k => exact fireTimer_fetches_later w tm k ha

/-- With no fetch timer pending, the passing of time issues no request. -/
theorem tick_fetches (w : World) (t : Nat) (h : fetchTimers w = []) :
    (tick w t).fetches = w.fetches := by
  unfold tick
  exact fireDue_fetches _ w t h

/-- The fetch timers after `handleInput`: none after a short query, otherwise
only the one the call queued. -/
theorem fetchTimers_handleInput (w : World) (value : JSString) (h : OneTimer w) :
    fetchTimers (handleInput w value).1 =
      if jsLength (jsTrim value) < 2 then []
      else [{ id := w.nextTimerId, due := w.now + 300, action := .fetch (jsTrim value) }] := by
  have hc := fetchTimers_clear_debounce w h
  by_cases hq : jsLength (jsTrim value) < 2
  · rw [if_pos hq, handleInput_short w value hq]
    have hsub := fetchTimers_sublist
      (quiet_hideSuggestions (clearTimeout w w.debounceTimeout) none).to_shrink.timers
    rw [hc] at hsub
    exact List.sublist_nil.mp hsub
  · rw [if_neg hq, handleInput_long w value hq]
    unfold fetchTimers at hc ⊢
    simp only [List.filter_append, hc]
    rfl

theorem laterTimers_sublist {w w1 : World} (h : w1.timers.Sublist w.timers) :
    (laterTimers w1).Sublist (laterTimers w) :=
  h.filter _

/-- The passing of time to `t`, as the price filter sees it. -/
theorem tick_step (w : World) (t : Nat) (hwf : WF w) (hone : OneTimer w) (hnow : w.now ≤ t)
    (hform : w.filterForm = true) :
    laterTimers (tick w t) = (laterTimers w).filter (fun tm => decide (t < tm.due)) ∧
    (tick w t).submits =
      w.submits + ((laterTimers w).filter (fun tm => decide (tm.due ≤ t))).length ∧
    (tick w t).now = t ∧
    (tick w t).nextTimerId = w.nextTimerId ∧
    (∀ k, (tick w t).timeoutOf k = w.timeoutOf k) := by
  have hsp := tick_spec w t hwf hone
  have hsh := shrink_tick w t
  refine ⟨?_, hsp.2.2.1 hform, ?_, hsh.nextTimerId,
    fun k => timeoutOf_congr hsh.minTimeout hsh.maxTimeout k⟩
  · unfold laterTimers
    rw [hsp.1, List.filter_filter, List.filter_filter]
    apply List.filter_congr
    intro x _
    exact Bool.and_comm _ _
  · rw [hsp.2.2.2]
    exact Nat.max_eq_right hnow

/-- A change event on a price input, as the price filter sees it. -/
theorem change_step (w : World) (k : PriceInput) (hl : w.priceListeners = true) :
    laterTimers (dispatch w (.change k)) =
      laterTimers (clearTimeout w (w.timeoutOf k)) ++
        [{ id := w.nextTimerId, due := w.now + 1000, action := .later k }] ∧
    (dispatch w (.change k)).submits = w.submits ∧
    (dispatch w (.change k)).now = w.now ∧
    (dispatch w (.change k)).nextTimerId = w.nextTimerId + 1 ∧
    (dispatch w (.change k)).timeoutOf k = some w.nextTimerId ∧
    (∀ j, j ≠ k → (dispatch w (.change k)).timeoutOf j = w.timeoutOf j) := by
  have hd : dispatch w (.change k) = settleCompletion (executedFunction w k) := by
    simp only [dispatch, hl, if_true]
  have hq := quiet_settleCompletion (executedFunction w k)
  have he := executedFunction_eq w k
  have hsh := shrink_clearTimeout w (w.timeoutOf k)
  rw [hd]
  refine ⟨?_, ?_, ?_, ?_, ?_, ?_⟩
  · unfold laterTimers
    rw [hq.timers, he, (setTimeoutOf_timers _ _ _).1]
    simp only [List.filter_append]
    rfl
  · rw [hq.submits, he]
    cases k
    · unfold clearTimeout
      split <;> rfl
    · unfold clearTimeout
      split <;> rfl
  · rw [hq.now, he]
    cases k <;> exact clearTimeout_now _ _
  · rw [hq.nextTimerId, he]
    cases k <;> rfl
  · have : (settleCompletion (executedFunction w k)).timeoutOf k
        = (executedFunction w k).1.timeoutOf k :=
      timeoutOf_congr hq.minTimeout hq.maxTimeout k
    rw [this, he]
    exact setTimeoutOf_timeoutOf_same _ _ _
  · intro j hj
    have : (settleCompletion (executedFunction w k)).timeoutOf j
        = (executedFunction w k).1.timeoutOf j :=
      timeoutOf_congr hq.minTimeout hq.maxTimeout j
    rw [this, he, setTimeoutOf_timeoutOf_other _ _ _ _ hj]
    exact timeoutOf_congr hsh.minTimeout hsh.maxTimeout j

theorem laterTimers_clearTimeout (w : World) (handle : Option Nat) :
    laterTimers (clearTimeout w handle) =
      match handle with
      | none => laterTimers w
      | some h => (laterTimers w).filter (fun u => u.id != h) := by
  unfold clearTimeout laterTimers
  split
  · rfl
  · simp only [List.filter_filter]
    apply List.filter_congr
    intro x _
    exact Bool.and_comm _ _

/-- The state after a change of one price input at `t1` and of a price input
`k2` at `t2`, less than 1000ms later, when no `later` timer was pending. -/
theorem price_two_changes (w : World) (k1 k2 : PriceInput) (t1 t2 : Nat) (hwf : WF w)
    (hone : OneTimer w) (hl : w.priceListeners = true) (hform : w.filterForm = true)
    (hnone : laterTimers w = []) (h1 : w.now ≤ t1) (h2 : t1 ≤ t2) (h3 : t2 < t1 + 1000) :
    WF (run w [.tick t1, .change k1, .tick t2, .change k2]) ∧
    OneTimer (run w [.tick t1, .change k1, .tick t2, .change k2]) ∧
    (run w [.tick t1, .change k1, .tick t2, .change k2]).filterForm = true ∧
    (run w [.tick t1, .change k1, .tick t2, .change k2]).submits = w.submits ∧
    (run w [.tick t1, .change k1, .tick t2, .change k2]).now = t2 ∧
    laterTimers (run w [.tick t1, .change k1, .tick t2, .change k2]) =
      (if k2 = k1 then [] else
        [{ id := w.nextTimerId, due := t1 + 1000, action := .later k1 }]) ++
      [{ id := w.nextTimerId + 1, due := t2 + 1000, action := .later k2 }] := by
  have hrunw : ∀ evs : List Event, WF (run w evs) ∧ OneTimer (run w evs) ∧
      (run w evs).priceListeners = true ∧ (run w evs).filterForm = true := by
    intro evs
    have hls := run_listeners w evs
    exact ⟨wf_run evs hwf, oneTimer_run evs hone, hls.2.1.trans hl, hls.2.2.trans hform⟩
  have e1 : run w [.tick t1] = tick w t1 := rfl
  have e2 : run w [.tick t1, .change k1] = dispatch (run w [.tick t1]) (.change k1) := rfl
  have e3 : run w [.tick t1, .change k1, .tick t2] =
      tick (run w [.tick t1, .change k1]) t2 := rfl
  have e4 : run w [.tick t1, .change k1, .tick t2, .change k2] =
      dispatch (run w [.tick t1, .change k1, .tick t2]) (.change k2) := rfl
  have r1 := hrunw [.tick t1]
  have r2 := hrunw [.tick t1, .change k1]
  have r3 := hrunw [.tick t1, .change k1, .tick t2]
  have r4 := hrunw [.tick t1, .change k1, .tick t2, .change k2]
  -- the clock reaches t1
  have a1 := tick_step w t1 hwf hone h1 hform
  rw [hnone] at a1
  simp only [List.filter_nil, List.length_nil, Nat.add_zero] at a1
  rw [← e1] at a1
  -- the first change
  have a2 := change_step (run w [.tick t1]) k1 r1.2.2.1
  have hc2 : laterTimers (clearTimeout (run w [.tick t1]) ((run w [.tick t1]).timeoutOf k1)) = [] := by
    have hsub := laterTimers_sublist
      (shrink_clearTimeout (run w [.tick t1]) ((run w [.tick t1]).timeoutOf k1)).timers
    rw [a1.1] at hsub
    exact List.sublist_nil.mp hsub
  rw [hc2, ← e2, a1.2.1, a1.2.2.1, a1.2.2.2.1] at a2
  simp only [List.nil_append] at a2
  -- the clock reaches t2
  have a3 := tick_step (run w [.tick t1, .change k1]) t2 r2.1 r2.2.1
    (by rw [a2.2.2.1]; exact h2) r2.2.2.2
  rw [a2.1, a2.2.1, a2.2.2.2.1, ← e3] at a3
  have hlt : decide (t2 < t1 + 1000) = true := by simpa using h3
  have hle : decide (t1 + 1000 ≤ t2) = false := by simpa using h3
  simp only [List.filter_cons, hlt, hle, if_true, List.filter_nil, List.length_nil,
    Nat.add_zero, Bool.false_eq_true, if_false] at a3
  -- the second change
  have a4 := change_step (run w [.tick t1, .change k1, .tick t2]) k2 r3.2.2.1
  rw [← e4, a3.2.1, a3.2.2.1, a3.2.2.2.1] at a4
  refine ⟨r4.1, r4.2.1, r4.2.2.2, a4.2.1, a4.2.2.1, ?_⟩
  rw [a4.1, laterTimers_clearTimeout, a3.1]
  have hk2 : (run w [.tick t1, .change k1, .tick t2]).timeoutOf k2 =
      (run w [.tick t1, .change k1]).timeoutOf k2 := a3.2.2.2.2 k2
  by_cases hk : k2 = k1
  · rw [if_pos hk, hk2, hk, a2.2.2.2.2.1]
    simp
  · rw [if_neg hk, hk2, a2.2.2.2.2.2 k2 hk, a1.2.2.2.2 k2]
    cases hh : w.timeoutOf k2 with
    | none => rfl
    | some h =>
      have hfr : h < w.nextTimerId := by
        apply hwf.fresh.2 h
        cases k2
        · exact Or.inr (Or.inl hh)
        · exact Or.inr (Or.inr hh)
      have hne : (w.nextTimerId != h) = true := by
        simp only [bne_iff_ne, ne_eq]
        omega
      simp [List.filter_cons, hne]

/-- The submissions after the two changes, once both timers are due. -/
theorem price_submits (w : World) (k1 k2 : PriceInput) (t1 t2 t3 : Nat) (hwf : WF w)
    (hone : OneTimer w) (hl : w.priceListeners = true) (hform : w.filterForm = true)
    (hnone : laterTimers w = []) (h1 : w.now ≤ t1) (h2 : t1 ≤ t2) (h3 : t2 < t1 + 1000)
    (h4 : t2 + 1000 ≤ t3) :
    (run w [.tick t1, .change k1, .tick t2, .change k2, .tick t3]).submits =
      w.submits + (if k2 = k1 then 1 else 2) := by
  have h := price_two_changes w k1 k2 t1 t2 hwf hone hl hform hnone h1 h2 h3
  have e5 : run w [.tick t1, .change k1, .tick t2, .change k2, .tick t3] =
      tick (run w [.tick t1, .change k1, .tick t2, .change k2]) t3 := rfl
  have a5 := tick_step (run w [.tick t1, .change k1, .tick t2, .change k2]) t3 h.1 h.2.1
    (by rw [h.2.2.2.2.1]; omega) h.2.2.1
  rw [e5, a5.2.1, h.2.2.2.1, h.2.2.2.2.2]
  have hd1 : decide (t1 + 1000 ≤ t3) = true := by
    simp only [decide_eq_true_eq]
    omega
  have hd2 : decide (t2 + 1000 ≤ t3) = true := by simpa using h4
  by_cases hk : k2 = k1
  · simp [hk, List.filter_cons, hd2]
  · simp [hk, List.filter_cons, hd1, hd2]

/-! ## hideSuggestions and showSuggestions -/

/-- C6: with the panel and the search input in the document, `hideSuggestions`
changes nothing when an event is supplied whose target lies inside the panel
or inside the search input; in every other case, the absent event included,
the panel ends hidden, its markup is unchanged and nothing else changes. -/
theorem hideSuggestions_spec (w : World) (p : Panel) (event : Option Node)
    (hp : w.suggestionsContainer = some p) (hi : w.searchInput = true) :
    hideSuggestions w event =
      if event = some .insidePanel ∨ event = some .insideInput then (w, .normal)
      else ({ w with suggestionsContainer := some { p with display := .hidden } }, .normal) := by
  cases event with
  | none => simp [hideSuggestions, setDisplayNone, hp]
  | some target => cases target <;> simp [hideSuggestions, setDisplayNone, hp, hi]

theorem hideSuggestions_spec_witness :
    hideSuggestions visibleWorld (some .elsewhere) =
      ({ visibleWorld with
          suggestionsContainer := some { display := .hidden, innerHTML := renderRow shoe } },
        .normal) :=
  hideSuggestions_spec visibleWorld { display := .visible, innerHTML := renderRow shoe }
    (some .elsewhere) rfl rfl

/-- C4, as stated, fails: when the request rejects while the panel is visible,
the panel stays visible. -/
theorem fetchSuggestions_rejected_stays_visible :
    (fetchSuggestionsResume (fetchSuggestionsStart visibleWorld "sh".toList)
        .rejected).1.suggestionsContainer =
      some { display := .visible, innerHTML := renderRow shoe } ∧
    (fetchSuggestionsResume (fetchSuggestionsStart visibleWorld "sh".toList)
        .rejected).1.suggestionsContainer.map Panel.display ≠ some .hidden := by
  decide

/-- C4, amended: for every query and every prior state, a `fetchSuggestions`
call whose request rejects leaves the panel as it was (hidden if it was
hidden, visible if it was visible, same markup), logs exactly one diagnostic
and throws nothing. Issuing the request touches neither the panel nor the
log; `w2` is the state in which the rejection arrives. -/
theorem fetchSuggestions_rejected (w : World) (query : JSString) (w2 : World) :
    (fetchSuggestionsStart w query).suggestionsContainer = w.suggestionsContainer ∧
    (fetchSuggestionsStart w query).consoleErrors = w.consoleErrors ∧
    (fetchSuggestionsStart w query).fetches = w.fetches ++ [query] ∧
    (fetchSuggestionsResume w2 .rejected).2 = .normal ∧
    (fetchSuggestionsResume w2 .rejected).1.suggestionsContainer = w2.suggestionsContainer ∧
    (fetchSuggestionsResume w2 .rejected).1.consoleErrors = w2.consoleErrors ++ [.fetchFailed] ∧
    (fetchSuggestionsResume w2 .rejected).1.uncaught = w2.uncaught := by
  simp [fetchSuggestionsStart, fetchSuggestionsResume, fetchSuggestionsTry, consoleError]

/-- C5, as stated, fails: a response of status 500 whose body is valid JSON
with a suggestions list gets its suggestions displayed, and nothing is
logged. -/
theorem fetchSuggestions_http_error_displayed :
    fetchSuggestionsResume (new fullDom) (.response 500 (.json (.value (some [shoe])))) =
      ({ new fullDom with
          suggestionsContainer :=
            some { display := .visible, innerHTML := renderRow shoe } },
        .normal) ∧
    (fetchSuggestionsResume (new fullDom)
      (.response 500 (.json (.value (some [shoe]))))).1.consoleErrors = [] := by
  decide

/-- C5, amended: a network error and a body that is not JSON (whatever the
status) are each logged once and absorbed, and leave the panel as it was; an
HTTP status is never looked at, so a response with a JSON body is handled
exactly as the same body with status 200, displayed suggestions included. -/
theorem fetchSuggestions_failures (w : World) :
    fetchSuggestionsResume w .rejected =
      ({ w with consoleErrors := w.consoleErrors ++ [.fetchFailed] }, .normal) ∧
    (∀ status : Nat, fetchSuggestionsResume w (.response status .notJson) =
      ({ w with consoleErrors := w.consoleErrors ++ [.invalidJson] }, .normal)) ∧
    (∀ (status : Nat) (data : JsonData),
      fetchSuggestionsResume w (.response status (.json data)) =
        fetchSuggestionsResume w (.response 200 (.json data))) ∧
    (∀ (status : Nat) (suggestions : Option (List Suggestion)),
      fetchSuggestionsTry w (.response status (.json (.value suggestions))) =
        displaySuggestions w suggestions) := by
  refine ⟨?_, ?_, ?_, ?_⟩
  · simp [fetchSuggestionsResume, fetchSuggestionsTry, consoleError]
  · intro status
    simp [fetchSuggestionsResume, fetchSuggestionsTry, consoleError]
  · intro status data
    simp [fetchSuggestionsResume, fetchSuggestionsTry]
  · intro status suggestions
    simp [fetchSuggestionsTry]

/-! ## Missing elements -/

/-- C9 fails on a document that has the search input but no suggestions
panel: the focus listener is registered and throws a TypeError. -/
theorem missing_panel_focus_throws :
    (new noPanelDom).searchListeners = true ∧
    showSuggestions (new noPanelDom) = (new noPanelDom, .throw .typeError) ∧
    (run (new noPanelDom) [.focus]).uncaught = [.typeError] ∧
    (run (new noPanelDom) [.click .elsewhere]).uncaught = [.typeError] ∧
    (run (new noPanelDom) [.input "a".toList]).uncaught = [.typeError] ∧
    (run (new { fullDom with filterForm := false })
      [.change .minPrice, .tick 1000]).uncaught = [.typeError] := by
  decide

/-! ## handleInput -/

/-- C3: in every state reachable from construction in which the panel exists,
`handleInput` on a value of length below 2, or more generally of trimmed
length below 2, returns normally, leaves the panel hidden, leaves no fetch
timer pending, adds no timer, issues no request, and no request is issued
however long one waits afterwards. -/
theorem handleInput_short_query (dom : Dom) (events : List Event) (value : JSString)
    (p : Panel) (hp : (run (new dom) events).suggestionsContainer = some p)
    (hv : jsLength value < 2 ∨ jsLength (jsTrim value) < 2) :
    (handleInput (run (new dom) events) value).2 = .normal ∧
    (handleInput (run (new dom) events) value).1.suggestionsContainer =
      some { p with display := .hidden } ∧
    fetchTimers (handleInput (run (new dom) events) value).1 = [] ∧
    (handleInput (run (new dom) events) value).1.timers.Sublist (run (new dom) events).timers ∧
    (handleInput (run (new dom) events) value).1.fetches = (run (new dom) events).fetches ∧
    ∀ t : Nat, (tick (handleInput (run (new dom) events) value).1 t).fetches =
      (run (new dom) events).fetches := by
  have hq : jsLength (jsTrim value) < 2 := by
    rcases hv with h | h
    · exact lt_of_le_of_lt (jsLength_jsTrim_le value) h
    · exact h
  have hinv : OneTimer (run (new dom) events) := oneTimer_run events (oneTimer_new dom)
  generalize run (new dom) events = w at hp hinv ⊢
  have hc := fetchTimers_clear_debounce w hinv
  have hs := shrink_clearTimeout w w.debounceTimeout
  have hp1 : (clearTimeout w w.debounceTimeout).suggestionsContainer = some p := by
    rw [← hp]
    unfold clearTimeout
    split <;> rfl
  have hfe := clearTimeout_fetches w w.debounceTimeout
  have hhide : hideSuggestions (clearTimeout w w.debounceTimeout) none =
      ({ clearTimeout w w.debounceTimeout with
          suggestionsContainer := some { p with display := .hidden } }, .normal) := by
    simp [hideSuggestions, setDisplayNone, hp1]
  rw [handleInput_short w value hq, hhide]
  have hft : fetchTimers
      { clearTimeout w w.debounceTimeout with
        suggestionsContainer := some { p with display := .hidden } } = [] := hc
  refine ⟨rfl, rfl, hft, hs.timers, hfe, ?_⟩
  intro t
  rw [tick_fetches _ t hft]
  exact hfe

theorem handleInput_short_query_witness :
    (handleInput (run (new fullDom) [.input "shoe".toList]) "s".toList).2 = .normal ∧
    (handleInput (run (new fullDom) [.input "shoe".toList]) "s".toList).1.suggestionsContainer =
      some { display := .hidden, innerHTML := [] } ∧
    fetchTimers (handleInput (run (new fullDom) [.input "shoe".toList]) "s".toList).1 = [] ∧
    (handleInput (run (new fullDom) [.input "shoe".toList]) "s".toList).1.timers.Sublist
      (run (new fullDom) [.input "shoe".toList]).timers ∧
    (handleInput (run (new fullDom) [.input "shoe".toList]) "s".toList).1.fetches =
      (run (new fullDom) [.input "shoe".toList]).fetches ∧
    ∀ t : Nat, (tick (handleInput (run (new fullDom) [.input "shoe".toList]) "s".toList).1
      t).fetches = (run (new fullDom) [.input "shoe".toList]).fetches :=
  handleInput_short_query fullDom [.input "shoe".toList] "s".toList
    { display := .hidden, innerHTML := [] } (by decide) (Or.inl (by decide))

/-- C10: in every state reachable from construction by any sequence of
events (input events and the passing of time among them), at most one fetch
timer is pending. `handleInput` first cancels it: after the call the only
fetch timer that can be pending is the one the call scheduled, and the handle
of the cancelled timer is never pending again, whatever happens next, so its
callback never runs. -/
theorem at_most_one_fetch_timer (dom : Dom) (events : List Event) :
    (fetchTimers (run (new dom) events)).length ≤ 1 ∧
    fetchTimers (clearTimeout (run (new dom) events) (run (new dom) events).debounceTimeout)
      = [] ∧
    (∀ value : JSString,
      fetchTimers (handleInput (run (new dom) events) value).1 =
        if jsLength (jsTrim value) < 2 then []
        else [{ id := (run (new dom) events).nextTimerId,
                due := (run (new dom) events).now + 300,
                action := .fetch (jsTrim value) }]) ∧
    (∀ (value : JSString) (more : List Event) (t : Timer),
      t ∈ fetchTimers (run (new dom) events) →
      ∀ u ∈ (run (handleInput (run (new dom) events) value).1 more).timers, u.id ≠ t.id) := by
  have hinv : OneTimer (run (new dom) events) := oneTimer_run events (oneTimer_new dom)
  have hfresh : HandlesFresh (run (new dom) events) :=
    handlesFresh_run events (handlesFresh_new dom)
  generalize run (new dom) events = w at hinv hfresh ⊢
  have hc := fetchTimers_clear_debounce w hinv
  refine ⟨hinv.1, hc, ?_, ?_⟩
  · intro value
    exact fetchTimers_handleInput w value hinv
  · intro value more t ht
    have hmem : t ∈ w.timers := (List.mem_filter.mp ht).1
    have hd : w.debounceTimeout = some t.id := hinv.2 t ht
    have hclear : ∀ u ∈ (clearTimeout w w.debounceTimeout).timers, u.id ≠ t.id := by
      intro u hu
      rw [hd] at hu
      simp only [clearTimeout, List.mem_filter] at hu
      simpa using hu.2
    have hgone : Gone t.id (handleInput w value).1 := by
      by_cases hq : jsLength (jsTrim value) < 2
      · rw [handleInput_short w value hq]
        exact Gone.gone_of_shrink (quiet_hideSuggestions _ none).to_shrink
          ⟨by rw [(shrink_clearTimeout w _).nextTimerId]; exact hfresh.1 t hmem, hclear⟩
      · rw [handleInput_long w value hq]
        refine ⟨Nat.lt_succ_of_lt (hfresh.1 t hmem), ?_⟩
        intro u hu
        simp only [List.mem_append, List.mem_singleton] at hu
        rcases hu with hu | hu
        · exact hclear u hu
        · rw [hu]
          exact Nat.ne_of_gt (hfresh.1 t hmem)
    exact (gone_run more hgone).2

theorem at_most_one_fetch_timer_witness :
    (fetchTimers (run (new fullDom) [.input "sh".toList, .tick 100])).length ≤ 1 ∧
    fetchTimers (clearTimeout (run (new fullDom) [.input "sh".toList, .tick 100])
      (run (new fullDom) [.input "sh".toList, .tick 100]).debounceTimeout) = [] ∧
    (∀ value : JSString,
      fetchTimers (handleInput (run (new fullDom) [.input "sh".toList, .tick 100]) value).1 =
        if jsLength (jsTrim value) < 2 then []
        else [{ id := (run (new fullDom) [.input "sh".toList, .tick 100]).nextTimerId,
                due := (run (new fullDom) [.input "sh".toList, .tick 100]).now + 300,
                action := .fetch (jsTrim value) }]) ∧
    (∀ (value : JSString) (more : List Event) (t : Timer),
      t ∈ fetchTimers (run (new fullDom) [.input "sh".toList, .tick 100]) →
      ∀ u ∈ (run (handleInput (run (new fullDom) [.input "sh".toList, .tick 100]) value).1
        more).timers, u.id ≠ t.id) :=
  at_most_one_fetch_timer fullDom [.input "sh".toList, .tick 100]

/-! ## The debounce of the search input -/

/-- C1, as stated, fails: a change of `min_price` and, 500ms later, a change
of `max_price` leave two timers pending, and the form is submitted twice. -/
theorem price_min_then_max_submits_twice :
    (run (new fullDom)
      [.tick 0, .change .minPrice, .tick 500, .change .maxPrice]).timers.length = 2 ∧
    (run (new fullDom)
      [.tick 0, .change .minPrice, .tick 500, .change .maxPrice, .tick 1500]).submits = 2 := by
  decide

/-- C1, amended: each price input has a debounce timer of its own. In every
state reachable from construction with both price inputs and the form in the
document and no timer of the price filter pending, a change of `min_price`
and then, less than 1000ms later, a change of `max_price` leave two timers
pending, one per input, and once both are due `submit` has been called twice;
two changes of the same input less than 1000ms apart leave one timer pending
and `submit` is called once. -/
theorem price_filter_submissions (dom : Dom) (events : List Event) (t1 t2 t3 : Nat)
    (hmin : dom.minPrice = true) (hmax : dom.maxPrice = true)
    (hform : dom.filterForm = true)
    (hidle : laterTimers (run (new dom) events) = [])
    (h1 : (run (new dom) events).now ≤ t1) (h2 : t1 ≤ t2) (h3 : t2 < t1 + 1000)
    (h4 : t2 + 1000 ≤ t3) :
    laterTimers (run (run (new dom) events)
      [.tick t1, .change .minPrice, .tick t2, .change .maxPrice]) =
      [{ id := (run (new dom) events).nextTimerId, due := t1 + 1000,
         action := .later .minPrice },
       { id := (run (new dom) events).nextTimerId + 1, due := t2 + 1000,
         action := .later .maxPrice }] ∧
    (run (run (new dom) events)
      [.tick t1, .change .minPrice, .tick t2, .change .maxPrice, .tick t3]).submits =
      (run (new dom) events).submits + 2 ∧
    ∀ which : PriceInput,
      laterTimers (run (run (new dom) events)
        [.tick t1, .change which, .tick t2, .change which]) =
        [{ id := (run (new dom) events).nextTimerId + 1, due := t2 + 1000,
           action := .later which }] ∧
      (run (run (new dom) events)
        [.tick t1, .change which, .tick t2, .change which, .tick t3]).submits =
        (run (new dom) events).submits + 1 := by
  have hwf := wf_run events (wf_new dom)
  have hone := oneTimer_run events (oneTimer_new dom)
  have hls := run_listeners (new dom) events
  have hnew := new_listeners dom
  have hl : (run (new dom) events).priceListeners = true := by
    rw [hls.2.1, hnew.2.1, hmin, hmax]
    rfl
  have hf : (run (new dom) events).filterForm = true := by
    rw [hls.2.2, hnew.2.2, hform]
  generalize run (new dom) events = w at hidle h1 hwf hone hl hf ⊢
  have hne : ¬ (PriceInput.maxPrice = PriceInput.minPrice) := by decide
  have p := price_two_changes w .minPrice .maxPrice t1 t2 hwf hone hl hf hidle h1 h2 h3
  have q := price_submits w .minPrice .maxPrice t1 t2 t3 hwf hone hl hf hidle h1 h2 h3 h4
  rw [if_neg hne] at q
  refine ⟨?_, q, ?_⟩
  · rw [p.2.2.2.2.2, if_neg hne]
    rfl
  · intro which
    have p2 := price_two_changes w which which t1 t2 hwf hone hl hf hidle h1 h2 h3
    have q2 := price_submits w which which t1 t2 t3 hwf hone hl hf hidle h1 h2 h3 h4
    rw [if_pos rfl] at q2
    refine ⟨?_, q2⟩
    rw [p2.2.2.2.2.2, if_pos rfl]
    rfl

theorem price_filter_submissions_witness :
    laterTimers (run (run (new fullDom) [.input "shoe".toList, .tick 100])
      [.tick 1000, .change .minPrice, .tick 1500, .change .maxPrice]) =
      [{ id := (run (new fullDom) [.input "shoe".toList, .tick 100]).nextTimerId,
         due := 1000 + 1000, action := .later .minPrice },
       { id := (run (new fullDom) [.input "shoe".toList, .tick 100]).nextTimerId + 1,
         due := 1500 + 1000, action := .later .maxPrice }] ∧
    (run (run (new fullDom) [.input "shoe".toList, .tick 100])
      [.tick 1000, .change .minPrice, .tick 1500, .change .maxPrice, .tick 2500]).submits =
      (run (new fullDom) [.input "shoe".toList, .tick 100]).submits + 2 ∧
    ∀ which : PriceInput,
      laterTimers (run (run (new fullDom) [.input "shoe".toList, .tick 100])
        [.tick 1000, .change which, .tick 1500, .change which]) =
        [{ id := (run (new fullDom) [.input "shoe".toList, .tick 100]).nextTimerId + 1,
           due := 1500 + 1000, action := .later which }] ∧
      (run (run (new fullDom) [.input "shoe".toList, .tick 100])
        [.tick 1000, .change which, .tick 1500, .change which, .tick 2500]).submits =
        (run (new fullDom) [.input "shoe".toList, .tick 100]).submits + 1 :=
  price_filter_submissions fullDom [.input "shoe".toList, .tick 100] 1000 1500 2500
    rfl rfl rfl (by decide) (by decide) (by decide) (by decide) (by decide)

end AdvancedSearch
